import Mathlib

/-!
# Verification of the `whatthechord` chord-classification core

This file gives a shallow embedding, in Lean 4, of the chord-quality
inference engine of the `whatthechord` Rust crate:

* `src/note.rs`       — the 128-value `Note` enum (MIDI key numbers 0..127)
                         and its naming helpers;
* `src/chord/mod.rs`  — `Chord::from_notes` (the classifier entry point)
                         and `Chord::name`;
* `src/chord/guess/mod.rs` — `intervals`, `additions`, `dyad`, `triad`,
                         `tetrad`;
* `src/chord/qualities.rs` — the quality enums and their `Display` impls.

Modelling conventions:

* `Note` is `Fin 128`, matching the `#[repr(u8)]` enum whose derived `Ord`
  is discriminant (= pitch) order and whose `midi_key_number` is `self as u8`.
* Machine `u8` arithmetic is modelled on `Nat` with explicit wrapping
  (`% 256`), i.e. release-profile Rust semantics; all quantities involved
  stay below 256 so sums wrap exactly as `u8` does.
* Functions that can panic (out-of-bounds indexing such as `intervals[1]`,
  `notes[root_guess]`, or `notes[0]` on an empty slice) are embedded as
  `Option`-valued functions; `none` models the panic.
* `BTreeSet` round-trips (`&[Note] -> BTreeSet<&Note> -> Vec<Note>` and the
  `BTreeSet<u8>` sets inside `additions`) are modelled by sorted-unique
  lists: insertion keeps ascending order and drops duplicates, exactly the
  iteration order a `BTreeSet` produces.
-/

/-- Wrapping `u8` addition (release-profile Rust semantics). -/
def u8add (a b : Nat) : Nat := (a + b) % 256

/-- Wrapping `u8` subtraction (release-profile Rust semantics); both
arguments are `u8` values, i.e. below 256. -/
def u8sub (a b : Nat) : Nat := (a + 256 - b) % 256

/-- `Note` from `src/note.rs`: a `#[repr(u8)]` enum with exactly 128
variants `CMinus1 = 0` through `G9 = 127`; `midi_key_number` is `self as u8`
and the derived `Ord` is discriminant order, so the enum is order-isomorphic
to `Fin 128`. -/
abbrev Note := Fin 128

/-- `Note::midi_key_number`: `self as u8`. -/
def Note.midi_key_number (n : Note) : Nat := n.val

/-- `FlatOrSharp` from `src/note.rs`. -/
inductive FlatOrSharp where
  | Flat
  | Sharp

/-- `DyadQuality` from `src/chord/qualities.rs`. -/
inductive DyadQuality where
  | Augmented (n : Nat)
  | Diminished (n : Nat)
  | Indeterminate
  | Major (n : Nat)
  | Minor (n : Nat)
  | Perfect (n : Nat)
deriving DecidableEq

/-- `TriadQuality` from `src/chord/qualities.rs`. -/
inductive TriadQuality where
  | Augmented
  | Diminished
  | Indeterminate
  | Major
  | Minor
  | Suspended (n : Nat)
deriving DecidableEq

/-- `TetradQuality` from `src/chord/qualities.rs`. -/
inductive TetradQuality where
  | Indeterminate
  | SeventhDiminished
  | SeventhDominant
  | SeventhDominantFlatFive
  | SeventhMajor
  | SeventhMajorFlatFive
  | SeventhMinor
  | SeventhMinorMajor
  | SeventhAugmented
  | SeventhDiminishedMajor
  | SeventhHalfDiminished
  | SeventhAugmentedMajor
deriving DecidableEq

mutual
/-- `Chord` from `src/chord/mod.rs`: fields `intervals`, `chord_type`,
`notes`, `root`, `additions`, in source order. -/
inductive Chord where
  | mk (intervals : List Nat) (chord_type : ChordType) (notes : List Note)
      (root : Option Note) (additions : Option (List Note)) : Chord

/-- `ChordType` from `src/chord/mod.rs` (the `Complex` variant is declared
but never produced by the matchers). -/
inductive ChordType where
  | Complex (sub : List Chord)
  | Dyad (q : DyadQuality)
  | Silence
  | SingleNote
  | Tetrad (q : TetradQuality)
  | Triad (q : TriadQuality)
  | Unknown
end

/-- Field accessor for `Chord.intervals`. -/
@[simp] def Chord.intervals : Chord → List Nat
  | .mk i _ _ _ _ => i

/-- Field accessor for `Chord.chord_type`. -/
@[simp] def Chord.chord_type : Chord → ChordType
  | .mk _ t _ _ _ => t

/-- Field accessor for `Chord.notes`. -/
@[simp] def Chord.notes : Chord → List Note
  | .mk _ _ n _ _ => n

/-- Field accessor for `Chord.root`. -/
@[simp] def Chord.root : Chord → Option Note
  | .mk _ _ _ r _ => r

/-- Field accessor for `Chord.additions`. -/
@[simp] def Chord.additions : Chord → Option (List Note)
  | .mk _ _ _ _ a => a

/-- `impl Default for Chord`: the empty "silence" chord. -/
def Chord.default : Chord := Chord.mk [] ChordType.Silence [] none none

/-- Ordered insertion into a sorted duplicate-free list: the effect of
inserting one element into a `BTreeSet` ordered by the derived `Ord` on
`Note` (pitch order). -/
def btree_insert (n : Note) : List Note → List Note
  | [] => [n]
  | m :: rest =>
    if n < m then n :: m :: rest
    else if n = m then m :: rest
    else m :: btree_insert n rest

/-- The dedup-and-sort step of `Chord::from_notes`
(`&[Note] -> BTreeSet<&Note> -> Vec<Note>`): collect every input note into
an ordered set and read it back in ascending order. -/
def dedup_sort (l : List Note) : List Note :=
  l.foldl (fun acc n => btree_insert n acc) []

/-- Tail of `guess::intervals`: successive `u8` differences of MIDI key
numbers, each relative to the previous note. -/
def intervals_from : Nat → List Note → List Nat
  | _, [] => []
  | prev, n :: rest =>
    u8sub (Note.midi_key_number n) prev :: intervals_from (Note.midi_key_number n) rest

/-- `guess::intervals` from `src/chord/guess/mod.rs`: consecutive semitone
gaps; empty for an empty or single-note list. -/
def intervals : List Note → List Nat
  | [] => []
  | b :: rest => intervals_from (Note.midi_key_number b) rest

/-- The `scan` inside `guess::additions`: cumulative wrapping sums of the
interval list starting from the bass MIDI number (the pitches the skeleton
predicts above the bass). Collected into a `BTreeSet<u8>` in the source;
only membership in it is ever used. -/
def chord_tones : Nat → List Nat → List Nat
  | _, [] => []
  | prev, i :: rest => u8add prev i :: chord_tones (u8add prev i) rest

/-- `guess::additions` from `src/chord/guess/mod.rs`. The source computes
`raw_notes` as the `BTreeSet<u8>` of the MIDI numbers of `notes[1..]`, takes
the set difference with the skeleton tones and maps the surviving numbers
back through `Note::from`; since MIDI numbering is order-isomorphic to the
note enum this equals filtering the sorted-unique tail. `notes[0]` on an
empty slice panics, modelled as `none`. -/
def additions (notes : List Note) (ivs : List Nat) : Option (List Note) :=
  match notes with
  | [] => none
  | first :: rest =>
    let tones := chord_tones (Note.midi_key_number first) ivs
    let adds := (dedup_sort rest).filter
      (fun n => !(tones.contains (Note.midi_key_number n)))
    if adds.length = (first :: rest).length - 1 then
      match additions rest ivs with
      | none => none
      | some tl => some (first :: tl)
    else some adds

/-- The gap-to-quality lookup table inside `guess::dyad` (the `match` on
`intervals[1]`). -/
def dyad_table : Nat → DyadQuality
  | 0 => .Perfect 0
  | 1 => .Augmented 1
  | 2 => .Major 2
  | 3 => .Minor 3
  | 4 => .Major 3
  | 5 => .Perfect 4
  | 6 => .Augmented 4
  | 7 => .Perfect 5
  | 8 => .Minor 6
  | 9 => .Major 6
  | 10 => .Minor 7
  | 11 => .Major 7
  | 12 => .Diminished 9
  | 13 => .Minor 9
  | 14 => .Major 9
  | 15 => .Minor 10
  | 16 => .Major 10
  | 17 => .Perfect 11
  | 18 => .Diminished 12
  | 19 => .Perfect 12
  | 20 => .Minor 13
  | 21 => .Major 13
  | 22 => .Minor 14
  | 23 => .Major 14
  | 24 => .Perfect 15
  | 25 => .Augmented 15
  | _ => .Indeterminate

/-- `guess::dyad` from `src/chord/guess/mod.rs`. It reads `intervals[1]`,
which panics (`none`) whenever the interval vector has fewer than two
entries — and `Chord::from_notes` always hands it a one-entry vector. -/
def dyad (notes : List Note) (ivs : List Nat) : Option Chord :=
  match ivs[1]? with
  | none => none
  | some gap =>
    some (Chord.mk ivs (ChordType.Dyad (dyad_table gap)) notes notes[0]? none)

/-- The pair-to-quality table inside `guess::triad`. -/
def triad_table : Nat × Nat → TriadQuality
  | (4, 3) => .Major
  | (3, 4) => .Minor
  | (3, 3) => .Diminished
  | (4, 4) => .Augmented
  | (5, 2) => .Suspended 4
  | (2, 5) => .Suspended 2
  | _ => .Indeterminate

/-- The rotation loop of `guess::triad`, unrolled: returns the matched
quality and the final value of `root_guess` (which is 3 when every rotation
failed). -/
def triad_search (i0 i1 comp : Nat) : TriadQuality × Nat :=
  if triad_table (i0, i1) ≠ TriadQuality.Indeterminate then (triad_table (i0, i1), 0)
  else if triad_table (i1, comp) ≠ TriadQuality.Indeterminate then (triad_table (i1, comp), 1)
  else if triad_table (comp, i0) ≠ TriadQuality.Indeterminate then (triad_table (comp, i0), 2)
  else (TriadQuality.Indeterminate, 3)

/-- `guess::triad` from `src/chord/guess/mod.rs`. `intervals[0]`,
`intervals[1]` and `notes[root_guess]` panic (`none`) when out of bounds;
in particular `root_guess = 3` after a failed search overruns a 3-note
slice. -/
def triad (notes : List Note) (ivs : List Nat) : Option Chord :=
  match ivs[0]?, ivs[1]? with
  | some i0, some i1 =>
    let comp := u8sub (u8sub 12 i0) i1
    let qr := triad_search i0 i1 comp
    match notes[qr.2]? with
    | some r => some (Chord.mk ivs (ChordType.Triad qr.1) notes (some r) none)
    | none => none
  | _, _ => none

/-- The triple-to-quality table inside `guess::tetrad`. -/
def tetrad_table : Nat × Nat × Nat → TetradQuality
  | (4, 3, 4) => .SeventhMajor
  | (3, 4, 3) => .SeventhMinor
  | (4, 3, 3) => .SeventhDominant
  | (3, 3, 3) => .SeventhDiminished
  | (3, 3, 4) => .SeventhHalfDiminished
  | (3, 4, 4) => .SeventhMinorMajor
  | (4, 4, 3) => .SeventhAugmentedMajor
  | (4, 4, 2) => .SeventhAugmented
  | (3, 3, 5) => .SeventhDiminishedMajor
  | (4, 2, 4) => .SeventhDominantFlatFive
  | (4, 2, 5) => .SeventhMajorFlatFive
  | _ => .Indeterminate

/-- The rotation loop of `guess::tetrad`, unrolled: the matched quality and
`root_position` (`none` after exhausting all four rotations). -/
def tetrad_search (i0 i1 i2 comp : Nat) : TetradQuality × Option Nat :=
  if tetrad_table (i0, i1, i2) ≠ TetradQuality.Indeterminate then (tetrad_table (i0, i1, i2), some 0)
  else if tetrad_table (i1, i2, comp) ≠ TetradQuality.Indeterminate then (tetrad_table (i1, i2, comp), some 1)
  else if tetrad_table (i2, comp, i0) ≠ TetradQuality.Indeterminate then (tetrad_table (i2, comp, i0), some 2)
  else if tetrad_table (comp, i0, i1) ≠ TetradQuality.Indeterminate then (tetrad_table (comp, i0, i1), some 3)
  else (TetradQuality.Indeterminate, none)

/-- The "additional bass tone" arm of `guess::tetrad`
(`i0 % 12 == 0`): classify `notes[1..]` against intervals `[i1, i2]`, then
attach additions and restore the full note list. -/
def extra_bass (notes : List Note) (i1 i2 : Nat) : Option Chord :=
  let ivs := [i1, i2]
  match triad (notes.drop 1) ivs with
  | none => none
  | some c =>
    match additions notes ivs with
    | none => none
    | some adds =>
      some (Chord.mk (Chord.intervals c) (Chord.chord_type c) notes (Chord.root c) (some adds))

/-- The "additional overtone" arm of `guess::tetrad`
(`(i0+i1+i2) % 12 == 0`): classify `notes[..2]` against intervals
`[i0, i1]`, then attach additions and restore the full note list. -/
def extra_overtone (notes : List Note) (i0 i1 : Nat) : Option Chord :=
  let ivs := [i0, i1]
  match triad (notes.take 2) ivs with
  | none => none
  | some c =>
    match additions notes ivs with
    | none => none
    | some adds =>
      some (Chord.mk (Chord.intervals c) (Chord.chord_type c) notes (Chord.root c) (some adds))

/-- The "additional second" arm of `guess::tetrad` (`i0+i1 ∈ {3,4}`):
merge the bottom two gaps and classify all four notes against
`[i0+i1, i2]`. -/
def extra_second (notes : List Note) (i0 i1 i2 : Nat) : Option Chord :=
  let ivs := [u8add i0 i1, i2]
  match triad notes ivs with
  | none => none
  | some c =>
    match additions notes ivs with
    | none => none
    | some adds =>
      some (Chord.mk (Chord.intervals c) (Chord.chord_type c) notes (Chord.root c) (some adds))

/-- The "additional fourth" arm of `guess::tetrad` (`i2+i1 ∈ {3,4}`):
merge the top two gaps and classify all four notes against
`[i0, i1+i2]`. -/
def extra_fourth (notes : List Note) (i0 i1 i2 : Nat) : Option Chord :=
  let ivs := [i0, u8add i1 i2]
  match triad notes ivs with
  | none => none
  | some c =>
    match additions notes ivs with
    | none => none
    | some adds =>
      some (Chord.mk (Chord.intervals c) (Chord.chord_type c) notes (Chord.root c) (some adds))

/-- `guess::tetrad` from `src/chord/guess/mod.rs`: the four decomposition
heuristics in source order, then the seventh-chord rotation search.
`intervals[0..3]` panics (`none`) on a shorter vector, and so does
`notes[position]` when the matched rotation index overruns the slice. -/
def tetrad (notes : List Note) (ivs : List Nat) : Option Chord :=
  match ivs with
  | i0 :: i1 :: i2 :: _ =>
    if i0 % 12 = 0 then extra_bass notes i1 i2
    else if (u8add (u8add i0 i1) i2) % 12 = 0 then extra_overtone notes i0 i1
    else if u8add i0 i1 = 3 ∨ u8add i0 i1 = 4 then extra_second notes i0 i1 i2
    else if u8add i2 i1 = 3 ∨ u8add i2 i1 = 4 then extra_fourth notes i0 i1 i2
    else
      let comp := u8sub (u8sub (u8sub 12 i0) i1) i2
      match tetrad_search i0 i1 i2 comp with
      | (q, some rg) =>
        match notes[rg]? with
        | some r => some (Chord.mk ivs (ChordType.Tetrad q) notes (some r) none)
        | none => none
      | (q, none) => some (Chord.mk ivs (ChordType.Tetrad q) notes none none)
  | _ => none

/-- `Chord::from_notes` from `src/chord/mod.rs` — the classifier entry
point (`classify` in the specification): dedup + sort, compute intervals,
dispatch on the deduplicated size. `none` models a panic in a callee. -/
def from_notes (input : List Note) : Option Chord :=
  let notes := dedup_sort input
  let ivs := intervals notes
  match notes.length with
  | 0 => some Chord.default
  | 1 => some (Chord.mk ivs ChordType.SingleNote notes notes[0]? none)
  | 2 => dyad notes ivs
  | 3 => triad notes ivs
  | 4 => tetrad notes ivs
  | _ => some (Chord.mk ivs ChordType.Unknown notes none none)

/-- `Note::is_sharp` from `src/note.rs`. -/
def Note.is_sharp (n : Note) : Bool :=
  let p := Note.midi_key_number n % 12
  p == 1 || p == 3 || p == 6 || p == 8 || p == 10

/-- `Note::tone_name` from `src/note.rs`, for the 0/1 transpositions
`Note::name` uses. The `i8` sum `midi_key_number + transpose_half_tones + 3`
overflows `i8` for MIDI keys 125..127 (F9 and above): the debug profile
panics at the addition, and the release profile wraps to a negative
`relative_to_a`, making `char_offset` negative, so
`u8::try_from(char_offset).unwrap()` panics. Both profiles panic, modelled
as `none`; below the overflow the arithmetic agrees with `Nat`. -/
def Note.tone_name (n : Note) (transpose_half_tones : Nat) : Option Char :=
  if 127 < Note.midi_key_number n + transpose_half_tones + 3 then none
  else
    let relative_to_a := (Note.midi_key_number n + transpose_half_tones + 3) % 12
    let char_offset :=
      if relative_to_a < 7 ∧ relative_to_a % 2 = 0 then relative_to_a / 2
      else relative_to_a / 2 + 1
    some (Char.ofNat (65 + char_offset))

/-- `Note::octave` from `src/note.rs`: `midi_key_number / 12 - 1` in `u8`
arithmetic (wrapping for the lowest octave, whose MIDI numbers are below
12). -/
def Note.octave (n : Note) : Nat := (Note.midi_key_number n / 12 + 255) % 256

/-- `Note::name` from `src/note.rs`: tone letter, accidental mark, octave
digits. A panic inside `Note::tone_name` (roots F9 and above) propagates. -/
def Note.name (n : Note) (accidental : FlatOrSharp) : Option String :=
  let ta : Nat × String :=
    match Note.is_sharp n, accidental with
    | true, FlatOrSharp.Flat => (1, "b")
    | true, FlatOrSharp.Sharp => (0, "#")
    | false, _ => (0, "")
  match Note.tone_name n ta.1 with
  | none => none
  | some tone => some (String.singleton tone ++ ta.2 ++ toString (Note.octave n))

/-- `char::is_numeric` restricted to the characters `Note::name` can emit
(ASCII letters, `#`, `b` and decimal digits): exactly the decimal digits
are numeric. -/
def is_numeric_char (c : Char) : Bool := c.isDigit

/-- `str::trim_end_matches(char::is_numeric)`: drop the longest numeric
suffix. -/
def trim_end_numeric (s : String) : String :=
  String.mk ((s.data.reverse.dropWhile is_numeric_char).reverse)

/-- `impl Display for DyadQuality` from `src/chord/qualities.rs`. -/
def DyadQuality.symbol : DyadQuality → String
  | .Augmented x => "aug" ++ toString x
  | .Diminished x => "sus" ++ toString x
  | .Indeterminate => "(ind)"
  | .Major x => toString x
  | .Minor x => "m" ++ toString x
  | .Perfect x => "P" ++ toString x

/-- `impl Display for TriadQuality` from `src/chord/qualities.rs`. -/
def TriadQuality.symbol : TriadQuality → String
  | .Augmented => "aug"
  | .Diminished => "dim"
  | .Indeterminate => "ind"
  | .Major => ""
  | .Minor => "m"
  | .Suspended x => "sus" ++ toString x

/-- `impl Display for TetradQuality` from `src/chord/qualities.rs`. -/
def TetradQuality.symbol : TetradQuality → String
  | .Indeterminate => "ind"
  | .SeventhDiminished => "dim7"
  | .SeventhDominant => "7"
  | .SeventhDominantFlatFive => "7b5"
  | .SeventhMajor => "M7"
  | .SeventhMajorFlatFive => "M7b5"
  | .SeventhMinor => "m7"
  | .SeventhMinorMajor => "mM7"
  | .SeventhAugmented => "aug7"
  | .SeventhDiminishedMajor => "mM7b5"
  | .SeventhHalfDiminished => "m7b5"
  | .SeventhAugmentedMajor => "M7#5"

/-- `Chord::name` from `src/chord/mod.rs`: `self.root?` makes the result
`None` when the root is absent; otherwise the root's name (whose
computation panics for roots F9 and above, propagated here as `none`) with
its numeric suffix trimmed, concatenated with the quality symbol (rendered
only for the `Triad` variant, every other variant contributes the empty
string). -/
def Chord.name (c : Chord) (accidental : FlatOrSharp) : Option String :=
  match Chord.root c with
  | none => none
  | some r =>
    match Note.name r accidental with
    | none => none
    | some s =>
      let root := trim_end_numeric s
      let quality :=
        match Chord.chord_type c with
        | ChordType.Triad q => TriadQuality.symbol q
        | _ => ""
      some (root ++ quality)

/-! Concrete notes used by the theorems below, with their MIDI key
numbers from the `Note` enum in `src/note.rs`. -/

/-- `Note::C1` (MIDI 24). -/
def C1 : Note := ⟨24, by decide⟩
/-- `Note::CSharp1` (MIDI 25). -/
def CSharp1 : Note := ⟨25, by decide⟩
/-- `Note::D1` (MIDI 26). -/
def D1 : Note := ⟨26, by decide⟩
/-- `Note::E1` (MIDI 28). -/
def E1 : Note := ⟨28, by decide⟩
/-- `Note::G1` (MIDI 31). -/
def G1 : Note := ⟨31, by decide⟩
/-- `Note::GSharp1` (MIDI 32). -/
def GSharp1 : Note := ⟨32, by decide⟩
/-- `Note::C2` (MIDI 36). -/
def C2 : Note := ⟨36, by decide⟩
/-- `Note::E2` (MIDI 40). -/
def E2 : Note := ⟨40, by decide⟩
/-- `Note::C3` (MIDI 48). -/
def C3 : Note := ⟨48, by decide⟩
/-- `Note::C4` (MIDI 60). -/
def C4 : Note := ⟨60, by decide⟩
/-- `Note::CSharp4` (MIDI 61). -/
def CSharp4 : Note := ⟨61, by decide⟩
/-- `Note::DSharp4` (MIDI 63). -/
def DSharp4 : Note := ⟨63, by decide⟩
/-- `Note::E4` (MIDI 64). -/
def E4 : Note := ⟨64, by decide⟩
/-- `Note::F4` (MIDI 65). -/
def F4 : Note := ⟨65, by decide⟩
/-- `Note::G4` (MIDI 67). -/
def G4 : Note := ⟨67, by decide⟩
/-- `Note::G9` (MIDI 127, the highest note). -/
def G9 : Note := ⟨127, by decide⟩

/-! ## Helper lemmas -/

/-- `intervals_from` yields one interval per note. -/
theorem intervals_from_length (prev : Nat) (l : List Note) :
    (intervals_from prev l).length = l.length := by
  induction l generalizing prev with
  | nil => rfl
  | cons n rest ih => simp [intervals_from, ih]

/-- `guess::intervals` yields one interval fewer than the note count. -/
theorem intervals_length (l : List Note) : (intervals l).length = l.length - 1 := by
  cases l with
  | nil => rfl
  | cons b rest => simp [intervals, intervals_from_length]

/-- Membership after an ordered insertion: the new element or an old one. -/
theorem mem_btree_insert {x n : Note} {l : List Note}
    (h : x ∈ btree_insert n l) : x = n ∨ x ∈ l := by
  induction l with
  | nil =>
    simp [btree_insert] at h
    exact Or.inl h
  | cons m rest ih =>
    simp only [btree_insert] at h
    split at h
    · rcases List.mem_cons.mp h with h1 | h1
      · exact Or.inl h1
      · exact Or.inr h1
    · split at h
      · exact Or.inr h
      · rcases List.mem_cons.mp h with h1 | h1
        · exact Or.inr (List.mem_cons.mpr (Or.inl h1))
        · rcases ih h1 with h2 | h2
          · exact Or.inl h2
          · exact Or.inr (List.mem_cons.mpr (Or.inr h2))

/-- Ordered insertion preserves strict ascending order. -/
theorem btree_insert_pairwise {n : Note} {l : List Note}
    (h : l.Pairwise (· < ·)) : (btree_insert n l).Pairwise (· < ·) := by
  induction l with
  | nil => simp [btree_insert]
  | cons m rest ih =>
    rcases List.pairwise_cons.mp h with ⟨hm, hrest⟩
    simp only [btree_insert]
    split
    next hlt =>
      refine List.pairwise_cons.mpr ⟨?_, h⟩
      intro b hb
      rcases List.mem_cons.mp hb with rfl | hb
      · exact hlt
      · exact lt_trans hlt (hm b hb)
    next hlt =>
      split
      next heq => exact h
      next hne =>
        refine List.pairwise_cons.mpr ⟨?_, ih hrest⟩
        intro b hb
        rcases mem_btree_insert hb with rfl | hb
        · exact lt_of_le_of_ne (not_lt.mp hlt) (Ne.symm hne)
        · exact hm b hb

/-- Folding ordered insertions over any list preserves strict ascending
order of the accumulator. -/
theorem foldl_btree_insert_pairwise (l : List Note) :
    ∀ acc : List Note, acc.Pairwise (· < ·) →
      (l.foldl (fun acc n => btree_insert n acc) acc).Pairwise (· < ·) := by
  induction l with
  | nil => intro acc h; exact h
  | cons n rest ih => intro acc h; exact ih _ (btree_insert_pairwise h)

/-- The dedup-and-sort step always produces a strictly ascending list. -/
theorem dedup_sort_pairwise (l : List Note) : (dedup_sort l).Pairwise (· < ·) :=
  foldl_btree_insert_pairwise l [] List.Pairwise.nil

/-- When `guess::dyad` returns a chord, it stores the notes and intervals
it was handed. -/
theorem dyad_fields {notes : List Note} {ivs : List Nat} {c : Chord}
    (h : dyad notes ivs = some c) :
    Chord.notes c = notes ∧ Chord.intervals c = ivs := by
  rcases hg : ivs[1]? with _ | gap
  · simp [dyad, hg] at h
  · simp only [dyad, hg, Option.some.injEq] at h
    subst h
    exact ⟨rfl, rfl⟩

/-- When `guess::triad` returns a chord, it stores the notes and intervals
it was handed. -/
theorem triad_fields {notes : List Note} {ivs : List Nat} {c : Chord}
    (h : triad notes ivs = some c) :
    Chord.notes c = notes ∧ Chord.intervals c = ivs := by
  rcases h0 : ivs[0]? with _ | i0
  · simp [triad, h0] at h
  · rcases h1 : ivs[1]? with _ | i1
    · simp [triad, h0, h1] at h
    · rcases h2 : notes[(triad_search i0 i1 (u8sub (u8sub 12 i0) i1)).2]? with _ | r
      · simp [triad, h0, h1, h2] at h
      · simp only [triad, h0, h1, h2, Option.some.injEq] at h
        subst h
        exact ⟨rfl, rfl⟩

/-- When the "additional bass" arm returns a chord, it restores the full
note list and stores the 2-interval triad skeleton. -/
theorem extra_bass_fields {notes : List Note} {i1 i2 : Nat} {c : Chord}
    (h : extra_bass notes i1 i2 = some c) :
    Chord.notes c = notes ∧ (Chord.intervals c).length = 2 := by
  rcases hc : triad (notes.drop 1) [i1, i2] with _ | c'
  · simp only [extra_bass, hc] at h
    exact Option.noConfusion h
  · rcases ha : additions notes [i1, i2] with _ | adds
    · simp only [extra_bass, hc, ha] at h
      exact Option.noConfusion h
    · rcases c' with ⟨ci, ct, cn, cr, ca⟩
      have hi := (triad_fields hc).2
      simp only [Chord.intervals] at hi
      subst hi
      simp only [extra_bass, hc, ha, Option.some.injEq, Chord.intervals, Chord.chord_type,
        Chord.root] at h
      subst h
      exact ⟨rfl, rfl⟩

/-- When the "additional overtone" arm returns a chord, it restores the
full note list and stores the 2-interval triad skeleton. -/
theorem extra_overtone_fields {notes : List Note} {i0 i1 : Nat} {c : Chord}
    (h : extra_overtone notes i0 i1 = some c) :
    Chord.notes c = notes ∧ (Chord.intervals c).length = 2 := by
  rcases hc : triad (notes.take 2) [i0, i1] with _ | c'
  · simp only [extra_overtone, hc] at h
    exact Option.noConfusion h
  · rcases ha : additions notes [i0, i1] with _ | adds
    · simp only [extra_overtone, hc, ha] at h
      exact Option.noConfusion h
    · rcases c' with ⟨ci, ct, cn, cr, ca⟩
      have hi := (triad_fields hc).2
      simp only [Chord.intervals] at hi
      subst hi
      simp only [extra_overtone, hc, ha, Option.some.injEq, Chord.intervals, Chord.chord_type,
        Chord.root] at h
      subst h
      exact ⟨rfl, rfl⟩

/-- When the "additional second" arm returns a chord, it restores the full
note list and stores the merged 2-interval skeleton. -/
theorem extra_second_fields {notes : List Note} {i0 i1 i2 : Nat} {c : Chord}
    (h : extra_second notes i0 i1 i2 = some c) :
    Chord.notes c = notes ∧ (Chord.intervals c).length = 2 := by
  rcases hc : triad notes [u8add i0 i1, i2] with _ | c'
  · simp only [extra_second, hc] at h
    exact Option.noConfusion h
  · rcases ha : additions notes [u8add i0 i1, i2] with _ | adds
    · simp only [extra_second, hc, ha] at h
      exact Option.noConfusion h
    · rcases c' with ⟨ci, ct, cn, cr, ca⟩
      have hi := (triad_fields hc).2
      simp only [Chord.intervals] at hi
      subst hi
      simp only [extra_second, hc, ha, Option.some.injEq, Chord.intervals, Chord.chord_type,
        Chord.root] at h
      subst h
      exact ⟨rfl, rfl⟩

/-- When the "additional fourth" arm returns a chord, it restores the full
note list and stores the merged 2-interval skeleton. -/
theorem extra_fourth_fields {notes : List Note} {i0 i1 i2 : Nat} {c : Chord}
    (h : extra_fourth notes i0 i1 i2 = some c) :
    Chord.notes c = notes ∧ (Chord.intervals c).length = 2 := by
  rcases hc : triad notes [i0, u8add i1 i2] with _ | c'
  · simp only [extra_fourth, hc] at h
    exact Option.noConfusion h
  · rcases ha : additions notes [i0, u8add i1 i2] with _ | adds
    · simp only [extra_fourth, hc, ha] at h
      exact Option.noConfusion h
    · rcases c' with ⟨ci, ct, cn, cr, ca⟩
      have hi := (triad_fields hc).2
      simp only [Chord.intervals] at hi
      subst hi
      simp only [extra_fourth, hc, ha, Option.some.injEq, Chord.intervals, Chord.chord_type,
        Chord.root] at h
      subst h
      exact ⟨rfl, rfl⟩

/-- When `guess::tetrad` returns a chord, it stores the notes it was
handed, and either the full interval vector (seventh-chord path) or a
2-interval skeleton (the four decomposition arms). -/
theorem tetrad_fields {notes : List Note} {ivs : List Nat} {c : Chord}
    (h : tetrad notes ivs = some c) :
    Chord.notes c = notes ∧
      (Chord.intervals c = ivs ∨ (Chord.intervals c).length = 2) := by
  rcases ivs with _ | ⟨i0, _ | ⟨i1, _ | ⟨i2, rest⟩⟩⟩
  · exact Option.noConfusion h
  · exact Option.noConfusion h
  · exact Option.noConfusion h
  · simp only [tetrad] at h
    split at h
    · obtain ⟨hn, hl⟩ := extra_bass_fields h
      exact ⟨hn, Or.inr hl⟩
    · split at h
      · obtain ⟨hn, hl⟩ := extra_overtone_fields h
        exact ⟨hn, Or.inr hl⟩
      · split at h
        · obtain ⟨hn, hl⟩ := extra_second_fields h
          exact ⟨hn, Or.inr hl⟩
        · split at h
          · obtain ⟨hn, hl⟩ := extra_fourth_fields h
            exact ⟨hn, Or.inr hl⟩
          · split at h
            · split at h
              · rw [Option.some.injEq] at h
                subst h
                exact ⟨rfl, Or.inl rfl⟩
              · exact Option.noConfusion h
            · rw [Option.some.injEq] at h
              subst h
              exact ⟨rfl, Or.inl rfl⟩

/-- Whatever `Chord::from_notes` returns holds the deduplicated, sorted
input as its `notes`, and its `intervals` are either one shorter than that
list or a 2-interval skeleton from the tetrad decomposition (then with
exactly 4 distinct notes). -/
theorem from_notes_spec {input : List Note} {c : Chord}
    (h : from_notes input = some c) :
    Chord.notes c = dedup_sort input ∧
      ((Chord.intervals c).length = (dedup_sort input).length - 1 ∨
        ((dedup_sort input).length = 4 ∧ (Chord.intervals c).length = 2)) := by
  unfold from_notes at h
  rcases e : dedup_sort input with _ | ⟨n1, _ | ⟨n2, _ | ⟨n3, _ | ⟨n4, _ | ⟨n5, tl⟩⟩⟩⟩⟩ <;>
    rw [e] at h
  · have h2 : some Chord.default = some c := h
    rw [Option.some.injEq] at h2
    subst h2
    exact ⟨rfl, Or.inl rfl⟩
  · have h2 : some (Chord.mk (intervals [n1]) ChordType.SingleNote [n1] (some n1) none)
        = some c := h
    rw [Option.some.injEq] at h2
    subst h2
    exact ⟨rfl, Or.inl rfl⟩
  · have h2 : dyad [n1, n2] (intervals [n1, n2]) = some c := h
    obtain ⟨hn, hi⟩ := dyad_fields h2
    exact ⟨hn, Or.inl (by rw [hi, intervals_length])⟩
  · have h2 : triad [n1, n2, n3] (intervals [n1, n2, n3]) = some c := h
    obtain ⟨hn, hi⟩ := triad_fields h2
    exact ⟨hn, Or.inl (by rw [hi, intervals_length])⟩
  · have h2 : tetrad [n1, n2, n3, n4] (intervals [n1, n2, n3, n4]) = some c := h
    obtain ⟨hn, hi⟩ := tetrad_fields h2
    refine ⟨hn, ?_⟩
    rcases hi with hi | hi
    · exact Or.inl (by rw [hi, intervals_length])
    · exact Or.inr ⟨rfl, hi⟩
  · have h2 : some (Chord.mk (intervals (n1 :: n2 :: n3 :: n4 :: n5 :: tl)) ChordType.Unknown
        (n1 :: n2 :: n3 :: n4 :: n5 :: tl) none none) = some c := h
    rw [Option.some.injEq] at h2
    subst h2
    exact ⟨rfl, Or.inl (by simp [intervals_length])⟩

/-! ## Claim theorems -/

/-- C1: the claim that classification never fails is wrong on the code:
`guess::dyad` reads `intervals[1]` from the 1-entry interval vector that
`Chord::from_notes` computes for 2 distinct notes, an out-of-bounds index.
Classifying the 2-distinct-note input `[C1, D1]` therefore panics instead
of producing a Chord. -/
theorem dyad_two_note_input_panics :
    (dedup_sort [C1, D1]).length = 2 ∧ from_notes [C1, D1] = none :=
  ⟨rfl, rfl⟩

/-- C2 (counterexample): classifying `[C3, C4, E4, G4]` takes the
extra-bass tetrad decomposition and stores the 2-interval triad skeleton
`[4, 3]`, while the deduplicated input has 4 notes — so
`intervals.len() == dedup(notes).len() - 1` fails. -/
theorem intervals_length_invariant_counterexample :
    Option.map Chord.intervals (from_notes [C3, C4, E4, G4]) = some [4, 3] ∧
    (dedup_sort [C3, C4, E4, G4]).length = 4 ∧ ([4, 3] : List Nat).length ≠ 4 - 1 :=
  ⟨rfl, rfl, by decide⟩

/-- C2 (amended): whenever `Chord::from_notes` returns a chord, its stored
intervals are one fewer than the deduplicated note count, except on the
tetrad-decomposition paths, where exactly 4 distinct notes carry a
2-interval skeleton. -/
theorem intervals_length_invariant_amended {input : List Note} {c : Chord}
    (h : from_notes input = some c) :
    (Chord.intervals c).length = (dedup_sort input).length - 1 ∨
      ((dedup_sort input).length = 4 ∧ (Chord.intervals c).length = 2) :=
  (from_notes_spec h).2

/-- C2 (witness): the amended invariant holds for the classification of
`[C1, E1, G1]`. -/
theorem intervals_length_invariant_amended_witness :
    (Chord.intervals (Chord.mk [4, 3] (ChordType.Triad TriadQuality.Major) [C1, E1, G1]
        (some C1) none)).length = (dedup_sort [C1, E1, G1]).length - 1 ∨
      ((dedup_sort [C1, E1, G1]).length = 4 ∧
        (Chord.intervals (Chord.mk [4, 3] (ChordType.Triad TriadQuality.Major) [C1, E1, G1]
          (some C1) none)).length = 2) :=
  intervals_length_invariant_amended (by rfl)

/-- C3: the claimed dyad behaviour (gap looked up in the fixed table, root
the lower note) never executes: the interval vector for 2 distinct notes
holds only the single gap at index 0, yet `guess::dyad` matches on
`intervals[1]`, so every dyad classification panics. Shown on `[E1, G1]`,
whose interval vector is `[3]`. -/
theorem dyad_gap_lookup_panics :
    intervals (dedup_sort [E1, G1]) = [3] ∧
    dyad (dedup_sort [E1, G1]) [3] = none ∧
    from_notes [E1, G1] = none :=
  ⟨rfl, rfl, rfl⟩

/-- C4: when no rotation of a 3-note input matches any triad shape, the
loop leaves `root_guess = 3` and `guess::triad` evaluates
`notes[root_guess]` on a 3-element slice — an out-of-bounds panic, not an
Indeterminate chord with a fallback root. Shown on `[C1, CSharp1, D1]`
(intervals `[1, 1]`, matched by no rotation). -/
theorem triad_indeterminate_root_panics :
    intervals (dedup_sort [C1, CSharp1, D1]) = [1, 1] ∧
    triad_search 1 1 (u8sub (u8sub 12 1) 1) = (TriadQuality.Indeterminate, 3) ∧
    from_notes [C1, CSharp1, D1] = none :=
  ⟨rfl, rfl, rfl⟩

/-- C5: on a slice of length 1 `guess::additions` does not return no
additions: its all-extraneous guard (`0 == 0`) fires, it reports the bass
as an addition and recurses on the empty slice, where `notes[0]` panics —
for every interval list. -/
theorem additions_singleton_panics (n : Note) (ivs : List Nat) :
    additions [n] ivs = none :=
  rfl

/-- C6 (counterexample): classifying the unsorted input `[E1, C1, G1]`
stores the sorted `[C1, E1, G1]` in the `notes` field, not the
caller-supplied order. -/
theorem notes_field_original_order_counterexample :
    Option.map Chord.notes (from_notes [E1, C1, G1]) = some [C1, E1, G1] ∧
    [C1, E1, G1] ≠ [E1, C1, G1] :=
  ⟨rfl, by decide⟩

/-- C6 (amended): whenever `Chord::from_notes` returns a chord, its
`notes` field is the deduplicated input sorted ascending by pitch — on
every path, including the tetrad decompositions that reassign the field. -/
theorem notes_field_dedup_sorted {input : List Note} {c : Chord}
    (h : from_notes input = some c) : Chord.notes c = dedup_sort input :=
  (from_notes_spec h).1

/-- C6 (witness): the amended statement holds for the classification of
`[E1, G1, C2]`. -/
theorem notes_field_dedup_sorted_witness :
    Chord.notes (Chord.mk [3, 5] (ChordType.Triad TriadQuality.Major) [E1, G1, C2]
      (some C2) none) = dedup_sort [E1, G1, C2] :=
  notes_field_dedup_sorted (by rfl)

/-- C7: tetrad decomposition priority. For a 4-distinct-note input whose
extra-bass and extra-overtone guards fail while both the extra-second and
the extra-fourth guards hold, `Chord::from_notes` resolves via the
extra-second merge — the first matching guard in source order wins and the
function returns immediately. -/
theorem tetrad_decomposition_priority {input : List Note} {i0 i1 i2 : Nat}
    (hlen : (dedup_sort input).length = 4)
    (hiv : intervals (dedup_sort input) = [i0, i1, i2])
    (hbass : i0 % 12 ≠ 0)
    (hovertone : (u8add (u8add i0 i1) i2) % 12 ≠ 0)
    (hsecond : u8add i0 i1 = 3 ∨ u8add i0 i1 = 4)
    (hfourth : u8add i2 i1 = 3 ∨ u8add i2 i1 = 4) :
    from_notes input = extra_second (dedup_sort input) i0 i1 i2 := by
  have step : from_notes input = tetrad (dedup_sort input) (intervals (dedup_sort input)) := by
    unfold from_notes
    simp only [hlen]
  rw [step, hiv]
  simp only [tetrad]
  rw [if_neg hbass, if_neg hovertone, if_pos hsecond]

/-- C7 (witness): `[C4, CSharp4, DSharp4, F4]` has intervals `[1, 2, 2]`,
satisfying both the extra-second guard (1+2 = 3) and the extra-fourth
guard (2+2 = 4); it resolves via the extra-second merge. -/
theorem tetrad_decomposition_priority_witness :
    from_notes [C4, CSharp4, DSharp4, F4] = extra_second [C4, CSharp4, DSharp4, F4] 1 2 2 :=
  @tetrad_decomposition_priority [C4, CSharp4, DSharp4, F4] 1 2 2 (by decide) (by decide)
    (by decide) (by decide) (by decide) (by decide)

/-- C8: inversion invariance for C major. The first inversion
`[E1, G1, C2]` and the second inversion `[G1, C2, E2]` both classify as a
major triad rooted at C2, with intervals `[3, 5]` and `[5, 4]`. -/
theorem inversion_invariance_c_major :
    from_notes [E1, G1, C2] = some (Chord.mk [3, 5] (ChordType.Triad TriadQuality.Major)
        [E1, G1, C2] (some C2) none) ∧
    from_notes [G1, C2, E2] = some (Chord.mk [5, 4] (ChordType.Triad TriadQuality.Major)
        [G1, C2, E2] (some C2) none) :=
  ⟨rfl, rfl⟩

/-- C9: the claim that a present root always yields a name is wrong on
the code: `Chord::from_notes` applied to `[G9]` returns a SingleNote chord
whose root G9 is present, yet naming it panics for either accidental
preference — inside `Note::tone_name` the `i8` sum `127 + 0 + 3` overflows
(debug panics at the addition; release wraps negative and
`u8::try_from(char_offset).unwrap()` panics), contradicting the source's
own "Unwrap is OK" comments. Away from the overflowing roots (F9 and
above) the claimed behaviour does hold, e.g. the C-sharp minor triad named
with sharp preference yields "C#m" (root name trimmed of its octave digits
plus the triad quality symbol). -/
theorem chord_name_high_root_panics :
    from_notes [G9] = some (Chord.mk [] ChordType.SingleNote [G9] (some G9) none) ∧
    Chord.name (Chord.mk [] ChordType.SingleNote [G9] (some G9) none) FlatOrSharp.Sharp
      = none ∧
    Chord.name (Chord.mk [] ChordType.SingleNote [G9] (some G9) none) FlatOrSharp.Flat
      = none ∧
    Chord.name (Chord.mk [3, 4] (ChordType.Triad TriadQuality.Minor) [CSharp1, E1, GSharp1]
      (some CSharp1) none) FlatOrSharp.Sharp = some "C#m" :=
  ⟨rfl, rfl, rfl, rfl⟩

/-- C10: whenever `Chord::from_notes` returns a chord, its `notes` field
is strictly increasing by pitch and free of duplicates, on every path
including the tetrad decompositions that reassign the field. -/
theorem notes_field_sorted_nodup {input : List Note} {c : Chord}
    (h : from_notes input = some c) :
    (Chord.notes c).Pairwise (· < ·) ∧ (Chord.notes c).Nodup := by
  rw [(from_notes_spec h).1]
  exact ⟨dedup_sort_pairwise input, (dedup_sort_pairwise input).imp ne_of_lt⟩

/-- C10 (witness): the notes stored for the tetrad-decomposition input
`[C3, C4, E4, G4]` are strictly ascending and duplicate-free. -/
theorem notes_field_sorted_nodup_witness :
    (Chord.notes (Chord.mk [4, 3] (ChordType.Triad TriadQuality.Major) [C3, C4, E4, G4]
      (some C4) (some [C3]))).Pairwise (· < ·) ∧
    (Chord.notes (Chord.mk [4, 3] (ChordType.Triad TriadQuality.Major) [C3, C4, E4, G4]
      (some C4) (some [C3]))).Nodup :=
  @notes_field_sorted_nodup [C3, C4, E4, G4]
    (Chord.mk [4, 3] (ChordType.Triad TriadQuality.Major) [C3, C4, E4, G4]
      (some C4) (some [C3])) (by rfl)
